import Mathlib

/-!
Shallow embedding of the Python-MAAB lesson scripts, together with proofs
about the properties their specification states.

Conventions used throughout:
* Python `Decimal` balances are modelled by `Rat` (the operations used are
  only `+`, `-` and comparisons, on which `Decimal` agrees with ℚ).
* A Python `dict[int, Account]` is modelled by the list of present keys
  together with the function giving the object stored at each key.
* Methods that mutate their object in place and may raise are modelled as
  functions returning the final state paired with `Option ExcClass`
  (`none` = normal return, `some e` = the exception class raised); the
  returned state is the state at the moment the exception propagates,
  matching Python's in-place mutation semantics.
-/

namespace PyMAAB

/-- The Python exception classes relevant to the lessons: the built-in
classes and the classes declared in lesson 9 (`9-uv.py`) and lesson 10
(`10-uv.py`).  The `9`/`10` suffix distinguishes the two files' homonymous
declarations. -/
inductive ExcClass where
  | Exception
  | LookupError
  | KeyError
  | ValueError
  | RuntimeError
  | InsufficientFundsError9
  | AccountNotFoundError9
  | DuplicateAccountError9
  | BankError
  | DuplicateAccountError10
  | AccountNotFoundError10
  | InsufficientFundsError10
  deriving DecidableEq, Repr

/-- Direct base class of each exception class: built-ins follow CPython
(`KeyError <: LookupError <: Exception`), the lesson classes follow their
`class C(B): ...` declarations (`class AccountNotFoundError(KeyError)` in
lesson 9, `class AccountNotFoundError(BankError)` in lesson 10). -/
def ExcClass.parent : ExcClass → Option ExcClass
  | .Exception => none
  | .LookupError => some .Exception
  | .KeyError => some .LookupError
  | .ValueError => some .Exception
  | .RuntimeError => some .Exception
  | .InsufficientFundsError9 => some .RuntimeError
  | .AccountNotFoundError9 => some .KeyError
  | .DuplicateAccountError9 => some .KeyError
  | .BankError => some .Exception
  | .DuplicateAccountError10 => some .BankError
  | .AccountNotFoundError10 => some .BankError
  | .InsufficientFundsError10 => some .BankError

/-- Walk at most `fuel` steps up the parent chain looking for `d`. -/
def ExcClass.derivesGo : Nat → ExcClass → ExcClass → Bool
  | 0, _, _ => false
  | fuel + 1, c, d =>
    c = d ||
      match c.parent with
      | some p => ExcClass.derivesGo fuel p d
      | none => false

/-- `c.derivesFrom d` holds iff class `c` is `d` or a (transitive) subclass
of `d`; the parent chains above have length at most 3, so fuel 8 is exact. -/
def ExcClass.derivesFrom (c d : ExcClass) : Bool :=
  ExcClass.derivesGo 8 c d

/-! ## Lesson 9 — `Bank` / `Account` (Task 11 of `9-uv.py`) -/

/-- `Account` dataclass of lesson 9. -/
structure Account9 where
  account_id : Int
  owner : String
  balance : Rat
  deriving DecidableEq, Repr

/-- `Account.deposit` of lesson 9. -/
def Account9.deposit (a : Account9) (amount : Rat) : Except ExcClass Account9 :=
  if amount ≤ 0 then .error .ValueError
  else .ok { a with balance := a.balance + amount }

/-- `Account.withdraw` of lesson 9. -/
def Account9.withdraw (a : Account9) (amount : Rat) : Except ExcClass Account9 :=
  if amount ≤ 0 then .error .ValueError
  else if a.balance < amount then .error .InsufficientFundsError9
  else .ok { a with balance := a.balance - amount }

/-- The lesson-9 `Bank`: `self._accounts : dict[int, Account]`, modelled as
the list of present keys plus the account object stored at each key. -/
structure Bank9 where
  keys : List Int
  acct : Int → Account9

/-- `Bank.get_account` of lesson 9: `self._accounts.get(id)`, raising
`AccountNotFoundError` when the key is absent. -/
def Bank9.get_account (b : Bank9) (account_id : Int) : Except ExcClass Account9 :=
  if account_id ∈ b.keys then .ok (b.acct account_id)
  else .error .AccountNotFoundError9

/-- In-place mutation of the object stored at the (present) key `id`. -/
def Bank9.store (b : Bank9) (id : Int) (a : Account9) : Bank9 :=
  { b with acct := fun k => if k = id then a else b.acct k }

/-- `Bank.deposit` of lesson 9. -/
def Bank9.deposit (b : Bank9) (account_id : Int) (amount : Rat) :
    Bank9 × Option ExcClass :=
  match b.get_account account_id with
  | .error e => (b, some e)
  | .ok a =>
    match a.deposit amount with
    | .error e => (b, some e)
    | .ok a2 => (b.store account_id a2, none)

/-- `Bank.withdraw` of lesson 9. -/
def Bank9.withdraw (b : Bank9) (account_id : Int) (amount : Rat) :
    Bank9 × Option ExcClass :=
  match b.get_account account_id with
  | .error e => (b, some e)
  | .ok a =>
    match a.withdraw amount with
    | .error e => (b, some e)
    | .ok a2 => (b.store account_id a2, none)

/-- `Bank.get_balance` of lesson 9. -/
def Bank9.get_balance (b : Bank9) (account_id : Int) : Except ExcClass Rat :=
  match b.get_account account_id with
  | .error e => .error e
  | .ok a => .ok a.balance

/-- `Bank.transfer` of lesson 9.  The extra argument `depositFault` injects
an exception into the `dst.deposit(amount)` step (the `except Exception`
branch of the source); with `depositFault = false` the call behaves exactly
as the source does.  When the deposit step raises, the source rolls back
with `src.deposit(amount)` and raises `RuntimeError`. -/
def Bank9.transfer (b : Bank9) (from_id to_id : Int) (amount : Rat)
    (depositFault : Bool) : Bank9 × Option ExcClass :=
  if amount ≤ 0 then (b, some .ValueError)
  else
    match b.get_account from_id with
    | .error e => (b, some e)
    | .ok src =>
      match b.get_account to_id with
      | .error e => (b, some e)
      | .ok _dst =>
        match src.withdraw amount with
        | .error e => (b, some e)
        | .ok src2 =>
          let b1 := b.store from_id src2
          -- `dst` aliases the object now stored at `to_id` (the same
          -- object as `src` when `to_id = from_id`).
          let dstCur := b1.acct to_id
          match
            (if depositFault then Except.error ExcClass.Exception
             else dstCur.deposit amount) with
          | .ok dst2 => (b1.store to_id dst2, none)
          | .error _e =>
            match (b1.acct from_id).deposit amount with
            | .ok src3 => (b1.store from_id src3, some .RuntimeError)
            | .error e2 => (b1, some e2)

/-- Sum of the balances of all accounts in the lesson-9 bank. -/
def Bank9.totalBalance (b : Bank9) : Rat :=
  (b.keys.map fun k => (b.acct k).balance).sum

/-! ## Lesson 10 — `Bank` / `Account` (Task 3 of `10-uv.py`) -/

/-- `Account` dataclass of lesson 10, with overdraft. -/
structure Account10 where
  number : Int
  holder : String
  balance : Rat
  overdraft_limit : Rat
  deriving DecidableEq, Repr

/-- `Account.deposit` of lesson 10. -/
def Account10.deposit (a : Account10) (amount : Rat) : Except ExcClass Account10 :=
  if amount ≤ 0 then .error .ValueError
  else .ok { a with balance := a.balance + amount }

/-- `Account.withdraw` of lesson 10: allows negative balances down to
`-overdraft_limit`. -/
def Account10.withdraw (a : Account10) (amount : Rat) : Except ExcClass Account10 :=
  if amount ≤ 0 then .error .ValueError
  else
    let new_balance := a.balance - amount
    if new_balance < -a.overdraft_limit then .error .InsufficientFundsError10
    else .ok { a with balance := new_balance }

/-- The lesson-10 `Bank`. -/
structure Bank10 where
  keys : List Int
  acct : Int → Account10

/-- `Bank.get` of lesson 10 (`if not acc: raise AccountNotFoundError`;
an `Account` object is always truthy, so this fires exactly for `None`). -/
def Bank10.get (b : Bank10) (number : Int) : Except ExcClass Account10 :=
  if number ∈ b.keys then .ok (b.acct number)
  else .error .AccountNotFoundError10

/-- In-place mutation of the object stored at the (present) key `id`. -/
def Bank10.store (b : Bank10) (id : Int) (a : Account10) : Bank10 :=
  { b with acct := fun k => if k = id then a else b.acct k }

/-- `Bank.deposit` of lesson 10. -/
def Bank10.deposit (b : Bank10) (number : Int) (amount : Rat) :
    Bank10 × Option ExcClass :=
  match b.get number with
  | .error e => (b, some e)
  | .ok a =>
    match a.deposit amount with
    | .error e => (b, some e)
    | .ok a2 => (b.store number a2, none)

/-- `Bank.withdraw` of lesson 10. -/
def Bank10.withdraw (b : Bank10) (number : Int) (amount : Rat) :
    Bank10 × Option ExcClass :=
  match b.get number with
  | .error e => (b, some e)
  | .ok a =>
    match a.withdraw amount with
    | .error e => (b, some e)
    | .ok a2 => (b.store number a2, none)

/-- `Bank.transfer` of lesson 10.  `depositFault` injects an exception into
the `dst.deposit(amount)` step exactly as in `Bank9.transfer`.  On that
failure the source balance is restored directly
(`src.balance = original_src_balance`, a plain assignment that cannot
fail, so the `CRITICAL` double-failure branch is unreachable) and a
`RuntimeError` is raised. -/
def Bank10.transfer (b : Bank10) (from_id to_id : Int) (amount : Rat)
    (depositFault : Bool) : Bank10 × Option ExcClass :=
  if amount ≤ 0 then (b, some .ValueError)
  else
    match b.get from_id with
    | .error e => (b, some e)
    | .ok src =>
      match b.get to_id with
      | .error e => (b, some e)
      | .ok _dst =>
        let original_src_balance := src.balance
        match src.withdraw amount with
        | .error e => (b, some e)
        | .ok src2 =>
          let b1 := b.store from_id src2
          let dstCur := b1.acct to_id
          match
            (if depositFault then Except.error ExcClass.Exception
             else dstCur.deposit amount) with
          | .ok dst2 => (b1.store to_id dst2, none)
          | .error _e =>
            let b2 := b1.store from_id
              { b1.acct from_id with balance := original_src_balance }
            (b2, some .RuntimeError)

/-- Sum of the balances of all accounts in the lesson-10 bank. -/
def Bank10.totalBalance (b : Bank10) : Rat :=
  (b.keys.map fun k => (b.acct k).balance).sum

/-! ## Helper lemmas about the bank embeddings -/

@[simp] lemma Bank9.acct_store9 (b : Bank9) (id : Int) (a : Account9) (k : Int) :
    (b.store id a).acct k = if k = id then a else b.acct k := rfl

@[simp] lemma Bank9.keys_store9 (b : Bank9) (id : Int) (a : Account9) :
    (b.store id a).keys = b.keys := rfl

@[simp] lemma Bank10.acct_store10 (b : Bank10) (id : Int) (a : Account10) (k : Int) :
    (b.store id a).acct k = if k = id then a else b.acct k := rfl

@[simp] lemma Bank10.keys_store10 (b : Bank10) (id : Int) (a : Account10) :
    (b.store id a).keys = b.keys := rfl

lemma Bank9.get_account_of_mem {b : Bank9} {id : Int} (h : id ∈ b.keys) :
    b.get_account id = .ok (b.acct id) := by
  simp [Bank9.get_account, h]

lemma Bank10.get_of_mem {b : Bank10} {id : Int} (h : id ∈ b.keys) :
    b.get id = .ok (b.acct id) := by
  simp [Bank10.get, h]

/-- Updating a map at a key present exactly once changes a sum of mapped
values by replacing that key's contribution. -/
lemma sum_map_update (l : List Int) (g : Int → Rat) (i : Int) (v : Rat)
    (hnd : l.Nodup) (hi : i ∈ l) :
    (l.map fun k => if k = i then v else g k).sum = (l.map g).sum - g i + v := by
  induction l with
  | nil => cases hi
  | cons a l ih =>
    rcases List.nodup_cons.mp hnd with ⟨ha, hl⟩
    rcases List.mem_cons.mp hi with rfl | hi'
    · have : (l.map fun k => if k = i then v else g k) = l.map g := by
        apply List.map_congr_left
        intro x hx
        have : x ≠ i := fun h => ha (h ▸ hx)
        simp [this]
      simp [this]
      ring
    · have hai : a ≠ i := fun h => ha (h ▸ hi')
      simp only [List.map_cons, List.sum_cons, if_neg hai, ih hl hi']
      ring

lemma Bank9.totalBalance_store9 (b : Bank9) (id : Int) (a : Account9)
    (hnd : b.keys.Nodup) (hi : id ∈ b.keys) :
    (b.store id a).totalBalance = b.totalBalance - (b.acct id).balance + a.balance := by
  unfold Bank9.totalBalance
  simp only [Bank9.keys_store9, Bank9.acct_store9, apply_ite (Account9.balance)]
  exact sum_map_update b.keys (fun k => (b.acct k).balance) id a.balance hnd hi

lemma Bank10.totalBalance_store10 (b : Bank10) (id : Int) (a : Account10)
    (hnd : b.keys.Nodup) (hi : id ∈ b.keys) :
    (b.store id a).totalBalance = b.totalBalance - (b.acct id).balance + a.balance := by
  unfold Bank10.totalBalance
  simp only [Bank10.keys_store10, Bank10.acct_store10, apply_ite (Account10.balance)]
  exact sum_map_update b.keys (fun k => (b.acct k).balance) id a.balance hnd hi

/-! ## Claim theorems about `transfer` -/

/-- C1: for every bank (lesson 9 and lesson 10) holding two distinct
existing accounts and every amount > 0 with sufficient source funds
(`balance ≥ amount` in lesson 9, `balance - amount ≥ -overdraft_limit` in
lesson 10), `transfer` returns normally, the source balance decreases by
exactly `amount`, the destination balance increases by exactly `amount`,
and every other account is unchanged. -/
theorem transfer_moves_exact_amount
    (b9 : Bank9) (b10 : Bank10) (f t : Int) (a : Rat)
    (hft : f ≠ t) (hpos : 0 < a)
    (hf9 : f ∈ b9.keys) (ht9 : t ∈ b9.keys)
    (hsuf9 : a ≤ (b9.acct f).balance)
    (hf10 : f ∈ b10.keys) (ht10 : t ∈ b10.keys)
    (hsuf10 : -(b10.acct f).overdraft_limit ≤ (b10.acct f).balance - a) :
    (∃ b', Bank9.transfer b9 f t a false = (b', none) ∧
      (b'.acct f).balance = (b9.acct f).balance - a ∧
      (b'.acct t).balance = (b9.acct t).balance + a ∧
      (∀ k, k ≠ f → k ≠ t → b'.acct k = b9.acct k) ∧
      b'.keys = b9.keys) ∧
    (∃ b', Bank10.transfer b10 f t a false = (b', none) ∧
      (b'.acct f).balance = (b10.acct f).balance - a ∧
      (b'.acct t).balance = (b10.acct t).balance + a ∧
      (∀ k, k ≠ f → k ≠ t → b'.acct k = b10.acct k) ∧
      b'.keys = b10.keys) := by
  have hnpos : ¬ a ≤ 0 := not_le.mpr hpos
  have htf : t ≠ f := fun h => hft h.symm
  constructor
  · have hnw : ¬ (b9.acct f).balance < a := not_lt.mpr hsuf9
    have h9 : Bank9.transfer b9 f t a false =
        ((b9.store f { b9.acct f with balance := (b9.acct f).balance - a }).store t
          { b9.acct t with balance := (b9.acct t).balance + a }, none) := by
      unfold Bank9.transfer Account9.withdraw Account9.deposit
      rw [Bank9.get_account_of_mem hf9, Bank9.get_account_of_mem ht9]
      simp [hnpos, hnw, htf]
    refine ⟨_, h9, ?_, ?_, ?_, ?_⟩
    · simp [htf, hft]
    · simp
    · intro k hkf hkt
      simp [hkf, hkt]
    · simp
  · have hnw : ¬ (b10.acct f).balance - a < -(b10.acct f).overdraft_limit :=
      not_lt.mpr hsuf10
    have h10 : Bank10.transfer b10 f t a false =
        ((b10.store f { b10.acct f with balance := (b10.acct f).balance - a }).store t
          { b10.acct t with balance := (b10.acct t).balance + a }, none) := by
      unfold Bank10.transfer Account10.withdraw Account10.deposit
      rw [Bank10.get_of_mem hf10, Bank10.get_of_mem ht10]
      simp [hnpos, hnw, htf]
    refine ⟨_, h10, ?_, ?_, ?_, ?_⟩
    · simp [htf, hft]
    · simp
    · intro k hkf hkt
      simp [hkf, hkt]
    · simp

/-- Closed witness for `transfer_moves_exact_amount` at a concrete pair of
two-account banks. -/
theorem transfer_moves_exact_amount_witness :
    (∃ b', Bank9.transfer ⟨[1, 2], fun k =>
        if k = 1 then ⟨1, "Alice", 100⟩ else ⟨2, "Bob", 50⟩⟩ 1 2 20 false = (b', none) ∧
      (b'.acct 1).balance = 80 ∧ (b'.acct 2).balance = 70) := by
  obtain ⟨⟨b', h1, h2, h3, _⟩, _⟩ :=
    transfer_moves_exact_amount
      ⟨[1, 2], fun k => if k = 1 then ⟨1, "Alice", 100⟩ else ⟨2, "Bob", 50⟩⟩
      ⟨[1, 2], fun k => if k = 1 then ⟨1, "A", 100, 0⟩ else ⟨2, "B", 0, 0⟩⟩
      1 2 20 (by decide) (by norm_num)
      (by simp) (by simp) (by norm_num)
      (by simp) (by simp) (by norm_num)
  exact ⟨b', h1, by rw [h2]; norm_num, by rw [h3]; norm_num⟩

/-- C3: `transfer` requires a positive amount: for every `amount ≤ 0`, any
ids and any fault injection, both lessons' `transfer` raises `ValueError`
and leaves the bank exactly unchanged. -/
theorem transfer_nonpositive_amount_value_error
    (b9 : Bank9) (b10 : Bank10) (f t : Int) (a : Rat) (fault : Bool)
    (h : a ≤ 0) :
    Bank9.transfer b9 f t a fault = (b9, some .ValueError) ∧
    Bank10.transfer b10 f t a fault = (b10, some .ValueError) := by
  constructor
  · unfold Bank9.transfer; rw [if_pos h]
  · unfold Bank10.transfer; rw [if_pos h]

/-- Closed witness for `transfer_nonpositive_amount_value_error`. -/
theorem transfer_nonpositive_amount_value_error_witness :
    Bank9.transfer ⟨[], fun _ => ⟨0, "", 0⟩⟩ 1 2 0 false =
      (⟨[], fun _ => ⟨0, "", 0⟩⟩, some .ValueError) ∧
    Bank10.transfer ⟨[], fun _ => ⟨0, "", 0, 0⟩⟩ 1 2 0 false =
      (⟨[], fun _ => ⟨0, "", 0, 0⟩⟩, some .ValueError) :=
  transfer_nonpositive_amount_value_error
    ⟨[], fun _ => ⟨0, "", 0⟩⟩ ⟨[], fun _ => ⟨0, "", 0, 0⟩⟩ 1 2 0 false le_rfl

/-- C2: if crediting the destination fails after the source was debited
(fault injected into the `dst.deposit` step), `transfer` raises
`RuntimeError` and the source balance is restored to its value before the
call — in lesson 9 by `src.deposit(amount)`, in lesson 10 by assigning
`original_src_balance` back. -/
theorem transfer_rollback_restores_source
    (b9 : Bank9) (b10 : Bank10) (f t : Int) (a : Rat) (hpos : 0 < a)
    (hf9 : f ∈ b9.keys) (ht9 : t ∈ b9.keys)
    (hsuf9 : a ≤ (b9.acct f).balance)
    (hf10 : f ∈ b10.keys) (ht10 : t ∈ b10.keys)
    (hsuf10 : -(b10.acct f).overdraft_limit ≤ (b10.acct f).balance - a) :
    (∃ b', Bank9.transfer b9 f t a true = (b', some .RuntimeError) ∧
      (b'.acct f).balance = (b9.acct f).balance) ∧
    (∃ b', Bank10.transfer b10 f t a true = (b', some .RuntimeError) ∧
      (b'.acct f).balance = (b10.acct f).balance) := by
  have hnpos : ¬ a ≤ 0 := not_le.mpr hpos
  constructor
  · have hnw : ¬ (b9.acct f).balance < a := not_lt.mpr hsuf9
    have h9 : Bank9.transfer b9 f t a true =
        ((b9.store f { b9.acct f with balance := (b9.acct f).balance - a }).store f
          { b9.acct f with balance := (b9.acct f).balance - a + a },
         some .RuntimeError) := by
      unfold Bank9.transfer Account9.withdraw Account9.deposit
      rw [Bank9.get_account_of_mem hf9, Bank9.get_account_of_mem ht9]
      simp [hnpos, hnw]
    refine ⟨_, h9, ?_⟩
    simp
  · have hnw : ¬ (b10.acct f).balance - a < -(b10.acct f).overdraft_limit :=
      not_lt.mpr hsuf10
    have h10 : Bank10.transfer b10 f t a true =
        ((b10.store f { b10.acct f with balance := (b10.acct f).balance - a }).store f
          { b10.acct f with balance := (b10.acct f).balance },
         some .RuntimeError) := by
      unfold Bank10.transfer Account10.withdraw
      rw [Bank10.get_of_mem hf10, Bank10.get_of_mem ht10]
      simp [hnpos, hnw]
    refine ⟨_, h10, ?_⟩
    simp

/-- Closed witness for `transfer_rollback_restores_source`. -/
theorem transfer_rollback_restores_source_witness :
    (∃ b', Bank9.transfer ⟨[1, 2], fun k =>
        if k = 1 then ⟨1, "Alice", 100⟩ else ⟨2, "Bob", 50⟩⟩ 1 2 20 true =
          (b', some .RuntimeError) ∧ (b'.acct 1).balance = 100) := by
  obtain ⟨⟨b', h1, h2⟩, _⟩ :=
    transfer_rollback_restores_source
      ⟨[1, 2], fun k => if k = 1 then ⟨1, "Alice", 100⟩ else ⟨2, "Bob", 50⟩⟩
      ⟨[1, 2], fun k => if k = 1 then ⟨1, "A", 100, 0⟩ else ⟨2, "B", 0, 0⟩⟩
      1 2 20 (by norm_num) (by simp) (by simp) (by norm_num)
      (by simp) (by simp) (by norm_num)
  exact ⟨b', h1, by rw [h2]; norm_num⟩

/-- Conservation of the lesson-9 bank total under any `transfer` call. -/
lemma Bank9.transfer_totalBalance9 (b : Bank9) (f t : Int) (a : Rat)
    (fault : Bool) (hnd : b.keys.Nodup) :
    (Bank9.transfer b f t a fault).1.totalBalance = b.totalBalance := by
  by_cases ha : a ≤ 0
  · simp [Bank9.transfer, ha]
  by_cases hf : f ∈ b.keys
  case neg => simp [Bank9.transfer, ha, Bank9.get_account, hf]
  by_cases ht : t ∈ b.keys
  case neg => simp [Bank9.transfer, ha, Bank9.get_account, hf, ht]
  by_cases hw : (b.acct f).balance < a
  · simp [Bank9.transfer, ha, Bank9.get_account, hf, ht, Account9.withdraw, hw]
  cases fault
  · have h : Bank9.transfer b f t a false =
        ((b.store f { b.acct f with balance := (b.acct f).balance - a }).store t
          { (b.store f { b.acct f with balance := (b.acct f).balance - a }).acct t with
              balance :=
                ((b.store f
                    { b.acct f with balance := (b.acct f).balance - a }).acct t).balance
                  + a }, none) := by
      unfold Bank9.transfer Account9.withdraw Account9.deposit
      rw [Bank9.get_account_of_mem hf, Bank9.get_account_of_mem ht]
      simp [ha, hw]
    rw [h]
    have hnd1 : (b.store f { b.acct f with balance := (b.acct f).balance - a }).keys.Nodup := by
      simpa using hnd
    rw [Bank9.totalBalance_store9 _ _ _ hnd1 (by simpa using ht),
        Bank9.totalBalance_store9 _ _ _ hnd hf]
    ring
  · have h : Bank9.transfer b f t a true =
        ((b.store f { b.acct f with balance := (b.acct f).balance - a }).store f
          { b.acct f with balance := (b.acct f).balance - a + a },
         some .RuntimeError) := by
      unfold Bank9.transfer Account9.withdraw Account9.deposit
      rw [Bank9.get_account_of_mem hf, Bank9.get_account_of_mem ht]
      simp [ha, hw]
    rw [h]
    have hnd1 : (b.store f { b.acct f with balance := (b.acct f).balance - a }).keys.Nodup := by
      simpa using hnd
    rw [Bank9.totalBalance_store9 _ _ _ hnd1 (by simpa using hf),
        Bank9.totalBalance_store9 _ _ _ hnd hf]
    simp

/-- Conservation of the lesson-10 bank total under any `transfer` call. -/
lemma Bank10.transfer_totalBalance10 (b : Bank10) (f t : Int) (a : Rat)
    (fault : Bool) (hnd : b.keys.Nodup) :
    (Bank10.transfer b f t a fault).1.totalBalance = b.totalBalance := by
  by_cases ha : a ≤ 0
  · simp [Bank10.transfer, ha]
  by_cases hf : f ∈ b.keys
  case neg => simp [Bank10.transfer, ha, Bank10.get, hf]
  by_cases ht : t ∈ b.keys
  case neg => simp [Bank10.transfer, ha, Bank10.get, hf, ht]
  by_cases hw : (b.acct f).balance - a < -(b.acct f).overdraft_limit
  · simp [Bank10.transfer, ha, Bank10.get, hf, ht, Account10.withdraw, hw]
  cases fault
  · have h : Bank10.transfer b f t a false =
        ((b.store f { b.acct f with balance := (b.acct f).balance - a }).store t
          { (b.store f { b.acct f with balance := (b.acct f).balance - a }).acct t with
              balance :=
                ((b.store f
                    { b.acct f with balance := (b.acct f).balance - a }).acct t).balance
                  + a }, none) := by
      unfold Bank10.transfer Account10.withdraw Account10.deposit
      rw [Bank10.get_of_mem hf, Bank10.get_of_mem ht]
      simp [ha, hw]
    rw [h]
    have hnd1 : (b.store f { b.acct f with balance := (b.acct f).balance - a }).keys.Nodup := by
      simpa using hnd
    rw [Bank10.totalBalance_store10 _ _ _ hnd1 (by simpa using ht),
        Bank10.totalBalance_store10 _ _ _ hnd hf]
    ring
  · have h : Bank10.transfer b f t a true =
        ((b.store f { b.acct f with balance := (b.acct f).balance - a }).store f
          { b.acct f with balance := (b.acct f).balance },
         some .RuntimeError) := by
      unfold Bank10.transfer Account10.withdraw
      rw [Bank10.get_of_mem hf, Bank10.get_of_mem ht]
      simp [ha, hw]
    rw [h]
    have hnd1 : (b.store f { b.acct f with balance := (b.acct f).balance - a }).keys.Nodup := by
      simpa using hnd
    rw [Bank10.totalBalance_store10 _ _ _ hnd1 (by simpa using hf),
        Bank10.totalBalance_store10 _ _ _ hnd hf]
    simp

/-- C10: `transfer` conserves the total money in the bank — on every path
(normal return, each error, the fault-injected rollback, and `f = t`) the
sum of all balances after the call equals the sum before, in both
lessons. -/
theorem transfer_conserves_total_balance
    (b9 : Bank9) (b10 : Bank10) (f t : Int) (a : Rat) (fault : Bool)
    (hnd9 : b9.keys.Nodup) (hnd10 : b10.keys.Nodup) :
    (Bank9.transfer b9 f t a fault).1.totalBalance = b9.totalBalance ∧
    (Bank10.transfer b10 f t a fault).1.totalBalance = b10.totalBalance :=
  ⟨Bank9.transfer_totalBalance9 b9 f t a fault hnd9,
   Bank10.transfer_totalBalance10 b10 f t a fault hnd10⟩

/-- Closed witness for `transfer_conserves_total_balance` (a transfer of an
account to itself, with the fault injected). -/
theorem transfer_conserves_total_balance_witness :
    (Bank9.transfer ⟨[1, 2], fun k =>
        if k = 1 then ⟨1, "Alice", 100⟩ else ⟨2, "Bob", 50⟩⟩ 1 1 20 true).1.totalBalance =
      (150 : Rat) := by
  have h :=
    transfer_conserves_total_balance
      ⟨[1, 2], fun k => if k = 1 then ⟨1, "Alice", 100⟩ else ⟨2, "Bob", 50⟩⟩
      ⟨[1, 2], fun k => if k = 1 then ⟨1, "A", 100, 0⟩ else ⟨2, "B", 0, 0⟩⟩
      1 1 20 true (by simp) (by simp)
  rw [h.1]
  simp [Bank9.totalBalance]
  norm_num

/-- C4 counterexample: the lesson-10 `AccountNotFoundError` raised for a
missing account is not in the `KeyError` hierarchy (its bases are
`BankError` and `Exception`). -/
theorem missing_account_not_key_error_counterexample :
    Bank10.get ⟨[], fun _ => ⟨0, "", 0, 0⟩⟩ 1 = .error .AccountNotFoundError10 ∧
    ExcClass.derivesFrom .AccountNotFoundError10 .KeyError = false := by
  constructor
  · simp [Bank10.get]
  · rfl

/-- C4 (amended): missing records surface as each lesson's
`AccountNotFoundError`: every lookup-requiring operation on an absent id
raises it.  In lesson 9 that class derives from `KeyError`; in lesson 10 it
derives from `BankError` (a direct `Exception` subclass) and not from
`KeyError`. -/
theorem missing_account_raises_not_found
    (b9 : Bank9) (b10 : Bank10) (id t : Int) (a : Rat) (fault : Bool)
    (h9 : id ∉ b9.keys) (h10 : id ∉ b10.keys) (hpos : 0 < a) :
    (Bank9.get_account b9 id = .error .AccountNotFoundError9 ∧
     Bank9.deposit b9 id a = (b9, some .AccountNotFoundError9) ∧
     Bank9.withdraw b9 id a = (b9, some .AccountNotFoundError9) ∧
     Bank9.get_balance b9 id = .error .AccountNotFoundError9 ∧
     Bank9.transfer b9 id t a fault = (b9, some .AccountNotFoundError9) ∧
     ExcClass.derivesFrom .AccountNotFoundError9 .KeyError = true) ∧
    (Bank10.get b10 id = .error .AccountNotFoundError10 ∧
     Bank10.deposit b10 id a = (b10, some .AccountNotFoundError10) ∧
     Bank10.withdraw b10 id a = (b10, some .AccountNotFoundError10) ∧
     Bank10.transfer b10 id t a fault = (b10, some .AccountNotFoundError10) ∧
     ExcClass.derivesFrom .AccountNotFoundError10 .BankError = true ∧
     ExcClass.derivesFrom .AccountNotFoundError10 .KeyError = false) := by
  have hnpos : ¬ a ≤ 0 := not_le.mpr hpos
  constructor
  · refine ⟨?_, ?_, ?_, ?_, ?_, rfl⟩ <;>
      simp [Bank9.get_account, Bank9.deposit, Bank9.withdraw, Bank9.get_balance,
        Bank9.transfer, h9, hnpos]
  · refine ⟨?_, ?_, ?_, ?_, rfl, rfl⟩ <;>
      simp [Bank10.get, Bank10.deposit, Bank10.withdraw, Bank10.transfer, h10, hnpos]

/-- Closed witness for `missing_account_raises_not_found`. -/
theorem missing_account_raises_not_found_witness :
    Bank9.get_account ⟨[], fun _ => ⟨0, "", 0⟩⟩ 1 = .error .AccountNotFoundError9 ∧
    ExcClass.derivesFrom .AccountNotFoundError9 .KeyError = true := by
  have h :=
    missing_account_raises_not_found
      ⟨[], fun _ => ⟨0, "", 0⟩⟩ ⟨[], fun _ => ⟨0, "", 0, 0⟩⟩ 1 2 1 false
      (by simp) (by simp) (by norm_num)
  exact ⟨h.1.1, h.1.2.2.2.2.2⟩

/-! ## Lesson 9 — `BinarySearchTree` (Task 5 of `9-uv.py`) -/

/-- The three values accepted for `on_duplicate` by
`BinarySearchTree.__init__`. -/
inductive OnDuplicate where
  | ignore
  | error
  | count
  deriving DecidableEq, Repr

/-- `Optional[BSTNode]`: `nil` is Python's `None`; a node carries `key`,
`count` (the `BSTNode` dataclass default is 1) and the two optional
children. -/
inductive Tree where
  | nil
  | node (key : Int) (count : Nat) (left right : Tree)
  deriving DecidableEq, Repr

/-- The traversal of `BinarySearchTree.insert`: walk by comparison; on an
equal key apply the duplicate policy, on a missing child attach a fresh
`BSTNode(key)`.  Returns the tree after the call together with the
exception raised, if any (the `error` policy raises before any
mutation). -/
def insertGo (t : Tree) (key : Int) (pol : OnDuplicate) : Tree × Option ExcClass :=
  match t with
  | .nil => (.node key 1 .nil .nil, none)
  | .node k c l r =>
    if key = k then
      match pol with
      | .ignore => (.node k c l r, none)
      | .error => (.node k c l r, some .ValueError)
      | .count => (.node k (c + 1) l r, none)
    else if key < k then
      let p := insertGo l key pol
      (.node k c p.1 r, p.2)
    else
      let p := insertGo r key pol
      (.node k c l p.1, p.2)

/-- The traversal of `BinarySearchTree.search`. -/
def searchGo (t : Tree) (key : Int) : Bool :=
  match t with
  | .nil => false
  | .node k _ l r =>
    if key = k then true
    else if key < k then searchGo l key
    else searchGo r key

/-- The stored `count` at `key` along the search path (0 when absent). -/
def countAt (t : Tree) (key : Int) : Nat :=
  match t with
  | .nil => 0
  | .node k c l r =>
    if key = k then c
    else if key < k then countAt l key
    else countAt r key

/-- `BinarySearchTree` of lesson 9: the optional root plus the configured
duplicate policy. -/
structure BinarySearchTree where
  root : Tree
  on_duplicate : OnDuplicate
  deriving DecidableEq, Repr

/-- `BinarySearchTree.insert`. -/
def BinarySearchTree.insert (b : BinarySearchTree) (key : Int) :
    BinarySearchTree × Option ExcClass :=
  let p := insertGo b.root key b.on_duplicate
  ({ b with root := p.1 }, p.2)

/-- `BinarySearchTree.search`. -/
def BinarySearchTree.search (b : BinarySearchTree) (key : Int) : Bool :=
  searchGo b.root key

lemma insertGo_ignore_of_mem {t : Tree} {key : Int}
    (h : searchGo t key = true) :
    insertGo t key .ignore = (t, none) := by
  induction t with
  | nil => simp [searchGo] at h
  | node k c l r ihl ihr =>
    by_cases hk : key = k
    · simp [insertGo, hk]
    · by_cases hlt : key < k
      · have h' : searchGo l key = true := by
          simpa [searchGo, hk, hlt] using h
        simp [insertGo, hk, hlt, ihl h']
      · have h' : searchGo r key = true := by
          simpa [searchGo, hk, hlt] using h
        simp [insertGo, hk, hlt, ihr h']

lemma insertGo_error_of_mem {t : Tree} {key : Int}
    (h : searchGo t key = true) :
    insertGo t key .error = (t, some .ValueError) := by
  induction t with
  | nil => simp [searchGo] at h
  | node k c l r ihl ihr =>
    by_cases hk : key = k
    · simp [insertGo, hk]
    · by_cases hlt : key < k
      · have h' : searchGo l key = true := by
          simpa [searchGo, hk, hlt] using h
        simp [insertGo, hk, hlt, ihl h']
      · have h' : searchGo r key = true := by
          simpa [searchGo, hk, hlt] using h
        simp [insertGo, hk, hlt, ihr h']

lemma insertGo_count_of_mem {t : Tree} {key : Int}
    (h : searchGo t key = true) :
    (insertGo t key .count).2 = none ∧
    countAt (insertGo t key .count).1 key = countAt t key + 1 ∧
    ∀ j, searchGo (insertGo t key .count).1 j = searchGo t j := by
  induction t with
  | nil => simp [searchGo] at h
  | node k c l r ihl ihr =>
    by_cases hk : key = k
    · refine ⟨by simp [insertGo, hk], by simp [insertGo, countAt, hk], ?_⟩
      intro j
      simp [insertGo, hk, searchGo]
    · by_cases hlt : key < k
      · have h' : searchGo l key = true := by
          simpa [searchGo, hk, hlt] using h
        obtain ⟨h1, h2, h3⟩ := ihl h'
        refine ⟨by simp [insertGo, hk, hlt, h1], ?_, ?_⟩
        · simp [insertGo, countAt, hk, hlt, h2]
        · intro j
          by_cases hj : j = k
          · simp [insertGo, searchGo, hk, hlt, hj]
          · by_cases hjlt : j < k
            · simp [insertGo, searchGo, hk, hlt, hj, hjlt, h3 j]
            · simp [insertGo, searchGo, hk, hlt, hj, hjlt]
      · have h' : searchGo r key = true := by
          simpa [searchGo, hk, hlt] using h
        obtain ⟨h1, h2, h3⟩ := ihr h'
        refine ⟨by simp [insertGo, hk, hlt, h1], ?_, ?_⟩
        · simp [insertGo, countAt, hk, hlt, h2]
        · intro j
          by_cases hj : j = k
          · simp [insertGo, searchGo, hk, hlt, hj]
          · by_cases hjlt : j < k
            · simp [insertGo, searchGo, hk, hlt, hj, hjlt]
            · simp [insertGo, searchGo, hk, hlt, hj, hjlt, h3 j]

lemma insertGo_of_not_mem {t : Tree} {key : Int} (pol : OnDuplicate)
    (h : searchGo t key = false) :
    (insertGo t key pol).2 = none ∧
    searchGo (insertGo t key pol).1 key = true := by
  induction t with
  | nil => simp [insertGo, searchGo]
  | node k c l r ihl ihr =>
    by_cases hk : key = k
    · simp [searchGo, hk] at h
    · by_cases hlt : key < k
      · have h' : searchGo l key = false := by
          simpa [searchGo, hk, hlt] using h
        obtain ⟨h1, h2⟩ := ihl h'
        exact ⟨by simp [insertGo, hk, hlt, h1],
          by simp [insertGo, searchGo, hk, hlt, h2]⟩
      · have h' : searchGo r key = false := by
          simpa [searchGo, hk, hlt] using h
        obtain ⟨h1, h2⟩ := ihr h'
        exact ⟨by simp [insertGo, hk, hlt, h1],
          by simp [insertGo, searchGo, hk, hlt, h2]⟩

/-- C5: duplicate BST keys are dropped, counted, or an error per the
configured policy, and a missing key is added under every policy: for a
key already present, `insert` under `ignore` leaves the tree unchanged and
returns, under `error` raises `ValueError` leaving the tree unchanged, and
under `count` increments that key's stored count by one while leaving the
key set unchanged; for a key not present, `insert` returns normally and
the key is present afterwards. -/
theorem bst_insert_duplicate_policy (b : BinarySearchTree) (key : Int) :
    (b.search key = true →
      (b.on_duplicate = .ignore → b.insert key = (b, none)) ∧
      (b.on_duplicate = .error → b.insert key = (b, some .ValueError)) ∧
      (b.on_duplicate = .count →
        ∃ b', b.insert key = (b', none) ∧
          countAt b'.root key = countAt b.root key + 1 ∧
          ∀ j, b'.search j = b.search j)) ∧
    (b.search key = false →
      ∃ b', b.insert key = (b', none) ∧ b'.search key = true) := by
  obtain ⟨rt, pol⟩ := b
  constructor
  · intro h
    refine ⟨?_, ?_, ?_⟩
    · intro hp
      cases hp
      simp [BinarySearchTree.insert, insertGo_ignore_of_mem h]
    · intro hp
      cases hp
      simp [BinarySearchTree.insert, insertGo_error_of_mem h]
    · intro hp
      cases hp
      have h' : searchGo rt key = true := by
        simpa [BinarySearchTree.search] using h
      obtain ⟨h1, h2, h3⟩ := insertGo_count_of_mem h'
      refine ⟨⟨(insertGo rt key .count).1, .count⟩, ?_, ?_, ?_⟩
      · simp [BinarySearchTree.insert, h1]
      · exact h2
      · intro j
        simpa [BinarySearchTree.search] using h3 j
  · intro h
    have h' : searchGo rt key = false := by
      simpa [BinarySearchTree.search] using h
    obtain ⟨h1, h2⟩ := insertGo_of_not_mem pol h'
    refine ⟨⟨(insertGo rt key pol).1, pol⟩, ?_, ?_⟩
    · simp [BinarySearchTree.insert, h1]
    · simpa [BinarySearchTree.search] using h2

/-- Closed witness for `bst_insert_duplicate_policy`: inserting a present
key under `ignore` returns the identical tree. -/
theorem bst_insert_duplicate_policy_witness :
    BinarySearchTree.insert ⟨Tree.node 5 1 .nil .nil, .ignore⟩ 5 =
      (⟨Tree.node 5 1 .nil .nil, .ignore⟩, none) := by
  have h := bst_insert_duplicate_policy ⟨Tree.node 5 1 .nil .nil, .ignore⟩ 5
  exact (h.1 (by decide)).1 rfl

/-! ## Lesson 15 — `RosterMember` / `RosterDatabase` (`15-uv.py`)

The SQLite-backed table is modelled in memory: `rows` is the `Roster`
table's content in insertion order and `nextId` the next value SQLite's
`INTEGER PRIMARY KEY AUTOINCREMENT` will assign (starting from 1 on a
fresh table).  The schema puts no `UNIQUE` constraint on `Name`, so
`INSERT` never fails for validated members. -/

/-- `RosterMember` dataclass (the optional `id` is `None` until the row is
inserted). -/
structure RosterMember where
  name : String
  species : String
  age : Int
  id : Option Int
  deriving DecidableEq, Repr

/-- Python's `str.strip()`: drop leading and trailing whitespace. -/
def pyStrip (s : String) : String :=
  ⟨((s.data.dropWhile Char.isWhitespace).reverse.dropWhile
      Char.isWhitespace).reverse⟩

/-- The field validation of `RosterMember.__post_init__`: returns the
exception class raised, or `none` when the member is accepted. -/
def RosterMember.validate (m : RosterMember) : Option ExcClass :=
  if pyStrip m.name = "" then some .ValueError
  else if 100 < m.name.length then some .ValueError
  else if pyStrip m.species = "" then some .ValueError
  else if 50 < m.species.length then some .ValueError
  else if ¬ (0 ≤ m.age ∧ m.age ≤ 1000) then some .ValueError
  else none

/-- One row of the `Roster` table. -/
structure RosterRow where
  id : Int
  name : String
  species : String
  age : Int
  deriving DecidableEq, Repr

/-- The `Roster` table state. -/
structure RosterDatabase where
  rows : List RosterRow
  nextId : Int
  deriving DecidableEq, Repr

/-- `RosterDatabase.create_table`: a fresh empty table; `AUTOINCREMENT`
starts assigning ids at 1. -/
def RosterDatabase.create_table : RosterDatabase := ⟨[], 1⟩

/-- `RosterDatabase.create`: `INSERT INTO Roster (Name, Species, Age)`
followed by `member.id = self.cursor.lastrowid`; returns the new table
state and the member with its assigned id. -/
def RosterDatabase.create (db : RosterDatabase) (m : RosterMember) :
    RosterDatabase × RosterMember :=
  (⟨db.rows ++ [⟨db.nextId, m.name, m.species, m.age⟩], db.nextId + 1⟩,
   { m with id := some db.nextId })

/-- `RosterDatabase.read_all`: `SELECT id, Name, Species, Age FROM Roster
ORDER BY Name`, each row turned back into a `RosterMember`. -/
def RosterDatabase.read_all (db : RosterDatabase) : List RosterMember :=
  (db.rows.mergeSort fun p q => decide (p.name ≤ q.name)).map
    fun p => ⟨p.name, p.species, p.age, some p.id⟩

/-- C8: duplicate roster names are permitted: creating two valid members
with equal names on the same database succeeds for both, the two rows get
the distinct auto-assigned ids `nextId` and `nextId + 1`, and `read_all`
afterwards returns both rows. -/
theorem roster_duplicate_names_permitted
    (db : RosterDatabase) (m1 m2 : RosterMember)
    (hv1 : m1.validate = none) (hv2 : m2.validate = none)
    (hname : m1.name = m2.name) :
    (db.create m1).2.id = some db.nextId ∧
    ((db.create m1).1.create m2).2.id = some (db.nextId + 1) ∧
    (db.create m1).2.id ≠ ((db.create m1).1.create m2).2.id ∧
    (⟨m1.name, m1.species, m1.age, some db.nextId⟩ : RosterMember) ∈
      ((db.create m1).1.create m2).1.read_all ∧
    (⟨m2.name, m2.species, m2.age, some (db.nextId + 1)⟩ : RosterMember) ∈
      ((db.create m1).1.create m2).1.read_all := by
  refine ⟨rfl, rfl, by simp [RosterDatabase.create], ?_, ?_⟩
  · unfold RosterDatabase.read_all
    refine List.mem_map.mpr ⟨⟨db.nextId, m1.name, m1.species, m1.age⟩, ?_, rfl⟩
    exact List.mem_mergeSort.mpr (by simp [RosterDatabase.create])
  · unfold RosterDatabase.read_all
    refine List.mem_map.mpr ⟨⟨db.nextId + 1, m2.name, m2.species, m2.age⟩, ?_, rfl⟩
    exact List.mem_mergeSort.mpr (by simp [RosterDatabase.create])

/-- Closed witness for `roster_duplicate_names_permitted`, on a fresh table
and two members who share the name. -/
theorem roster_duplicate_names_permitted_witness :
    (RosterDatabase.create_table.create ⟨"Dax", "Trill", 300, none⟩).2.id = some 1 ∧
    ((RosterDatabase.create_table.create ⟨"Dax", "Trill", 300, none⟩).1.create
        ⟨"Dax", "Human", 30, none⟩).2.id = some 2 := by
  have h :=
    roster_duplicate_names_permitted RosterDatabase.create_table
      ⟨"Dax", "Trill", 300, none⟩ ⟨"Dax", "Human", 30, none⟩
      (by decide) (by decide) rfl
  exact ⟨h.1, h.2.1⟩

/-! ## Lesson 12 — threaded word count (Task 3 of `12-uv.py`)

A `Counter` over words is modelled as the multiset of counted tokens
(`Counter` equality is per-word count equality, i.e. multiset equality).
The tokenizer (`tokenize_to_words`, a Unicode regex plus `casefold`) is a
parameter of the model.  The queue's nondeterministic distribution of the
file's lines over the fixed worker pool is abstracted as a per-worker
assignment of lines: the claim quantifies over every assignment in which
each line is consumed exactly once. -/

/-- `_wordcount_worker`: drain the assigned lines, updating a local
`Counter` with the line's tokens. -/
def wordcountWorker (tok : String → List String) :
    List String → Multiset String
  | [] => 0
  | line :: rest => (tok line : Multiset String) + wordcountWorker tok rest

/-- `threaded_word_count`: each worker builds its local `Counter` from its
assigned lines; after the sentinels, the main thread merges the locals
(`total.update(c)` for each worker result). -/
def threaded_word_count (tok : String → List String)
    (assignment : List (List String)) : Multiset String :=
  (assignment.map (wordcountWorker tok)).sum

/-- Specification-side sequential count: tokenize all lines in order and
count every token. -/
def seqWordCount (tok : String → List String) (lines : List String) :
    Multiset String :=
  ((lines.map tok).flatten : Multiset String)

lemma wordcountWorker_eq (tok : String → List String) (ls : List String) :
    wordcountWorker tok ls = ((ls.map tok).flatten : Multiset String) := by
  induction ls with
  | nil => rfl
  | cons line rest ih =>
    simp only [wordcountWorker, ih, List.map_cons, List.flatten_cons]
    rw [← Multiset.coe_add]

lemma threaded_word_count_eq_join (tok : String → List String)
    (assignment : List (List String)) :
    threaded_word_count tok assignment = seqWordCount tok assignment.flatten := by
  induction assignment with
  | nil => rfl
  | cons part rest ih =>
    simp only [threaded_word_count, List.map_cons, List.sum_cons,
      wordcountWorker_eq, List.flatten_cons] at ih ⊢
    rw [ih]
    simp only [seqWordCount, List.map_append, List.flatten_append]
    rw [← Multiset.coe_add]

/-- C7: the threaded word counter equals the sequential count: for every
sequence of lines and every assignment of those lines to the workers in
which each line is consumed exactly once (the joined assignment is a
permutation of the lines), merging the per-worker local counters yields
exactly the word-frequency `Counter` of tokenizing all lines sequentially,
word for word. -/
theorem threaded_word_count_eq_sequential
    (tok : String → List String) (lines : List String)
    (assignment : List (List String))
    (h : assignment.flatten.Perm lines) :
    threaded_word_count tok assignment = seqWordCount tok lines ∧
    ∀ w, Multiset.count w (threaded_word_count tok assignment) =
      Multiset.count w (seqWordCount tok lines) := by
  have hcoe : (assignment.flatten : Multiset String) = (lines : Multiset String) :=
    Multiset.coe_eq_coe.mpr h
  have hbind : ∀ l : List String,
      seqWordCount tok l = (l : Multiset String).bind fun s => (tok s : Multiset String) := by
    intro l
    simp only [seqWordCount, Multiset.coe_bind, List.flatMap]
  have hmain : threaded_word_count tok assignment = seqWordCount tok lines := by
    rw [threaded_word_count_eq_join, hbind, hbind, hcoe]
  exact ⟨hmain, fun w => by rw [hmain]⟩

/-- Closed witness for `threaded_word_count_eq_sequential`: two workers,
three lines handed out off the queue out of order. -/
theorem threaded_word_count_eq_sequential_witness :
    threaded_word_count (fun s => [s]) [["b", "a"], ["c"]] =
      seqWordCount (fun s => [s]) ["a", "b", "c"] := by
  have h :=
    threaded_word_count_eq_sequential (fun s => [s]) ["a", "b", "c"]
      [["b", "a"], ["c"]] (by decide)
  exact h.1

/-! ## Lesson 13 — age calculator (`13-uv.py`)

Dates are `datetime.date` values over the proleptic Gregorian calendar:
a `(year, month, day)` triple, ordered lexicographically, subtracted via
the day ordinal.  Python `//` and `%` are floor division and modulo
(`Int.fdiv` / `Int.fmod`). -/

/-- Gregorian leap year, as `datetime.date` computes with. -/
def isLeap (y : Int) : Bool :=
  y % 4 == 0 && (y % 100 != 0 || y % 400 == 0)

/-- `last_day_of_month`: the source computes the day of
`date(next month, 1) - timedelta(days=1)`; over `datetime`'s calendar this
evaluates to the standard month lengths. -/
def last_day_of_month (y m : Int) : Int :=
  if m == 2 then (if isLeap y then 29 else 28)
  else if m == 4 || m == 6 || m == 9 || m == 11 then 30
  else 31

/-- A `datetime.date` value. -/
structure PyDate where
  year : Int
  month : Int
  day : Int
  deriving DecidableEq, Repr

/-- Whether `date(y, m, d)` constructs without raising `ValueError`
(month in 1..12 and day in 1..month length; the claims stay inside the
year range, which therefore is not modelled). -/
def dateOk (y m d : Int) : Bool :=
  decide (1 ≤ m) && decide (m ≤ 12) && decide (1 ≤ d) &&
    decide (d ≤ last_day_of_month y m)

/-- Sum of the month lengths of months `1..n` of year `y`. -/
def sumMonthDays (y : Int) : Nat → Int
  | 0 => 0
  | n + 1 => sumMonthDays y n + last_day_of_month y (n + 1)

/-- `datetime.date.toordinal`: day number in the proleptic Gregorian
calendar (day 1 = January 1 of year 1); `a - b` on dates is
`toOrdinal a - toOrdinal b` days. -/
def toOrdinal (d : PyDate) : Int :=
  365 * (d.year - 1) + (d.year - 1).fdiv 4 - (d.year - 1).fdiv 100 +
    (d.year - 1).fdiv 400 + sumMonthDays d.year (d.month - 1).toNat + d.day

/-- Python `date` comparison: lexicographic on `(year, month, day)`. -/
def dateLt (a b : PyDate) : Bool :=
  decide (a.year < b.year) ||
    (a.year == b.year &&
      (decide (a.month < b.month) ||
        (a.month == b.month && decide (a.day < b.day))))

/-- Python tuple comparison on `(month, day)` pairs. -/
def pairLt (a b : Int × Int) : Bool :=
  decide (a.1 < b.1) || (a.1 == b.1 && decide (a.2 < b.2))

/-- `add_months`: add `months` to `d`, clamping the day to the target
month's last day. -/
def add_months (d : PyDate) (months : Int) : PyDate :=
  let y := d.year + (d.month - 1 + months).fdiv 12
  let m := (d.month - 1 + months).fmod 12 + 1
  let day := min d.day (last_day_of_month y m)
  ⟨y, m, day⟩

/-- `AgeBreakdown` dataclass. -/
structure AgeBreakdown where
  years : Int
  months : Int
  days : Int
  total_days : Int
  deriving DecidableEq, Repr

/-- `calculate_age(birthdate, on_date)`: the two validation guards raise
`ValueError`; everything after them is pure arithmetic over `add_months`
(which clamps, so no date construction can fail). -/
def calculate_age (birthdate on_date : PyDate) : Except ExcClass AgeBreakdown :=
  if dateLt on_date birthdate then .error .ValueError
  else
    let age_years := (toOrdinal on_date - toOrdinal birthdate).fdiv 365
    if 150 < age_years then .error .ValueError
    else
      let years0 := on_date.year - birthdate.year
      let years1 :=
        if pairLt (on_date.month, on_date.day) (birthdate.month, birthdate.day)
        then years0 - 1 else years0
      let anniv := add_months birthdate (years1 * 12)
      let months0 := (on_date.year - anniv.year) * 12 + (on_date.month - anniv.month)
      let months1 := if on_date.day < anniv.day then months0 - 1 else months0
      let months2 := if months1 < 0 then 0 else months1
      let yearsF := if 11 < months2 then years1 + months2.fdiv 12 else years1
      let monthsF := if 11 < months2 then months2.fmod 12 else months2
      let month_mark := add_months anniv monthsF
      let days := toOrdinal on_date - toOrdinal month_mark
      let total_days := toOrdinal on_date - toOrdinal birthdate
      .ok ⟨yearsF, monthsF, days, total_days⟩

/-- `days_until_next_birthday(birthdate, today)`: the `try/except
ValueError` around each `date(...)` construction clamps Feb 29 to the last
day of February. -/
def days_until_next_birthday (birthdate today : PyDate) : Int :=
  let nb0 : PyDate :=
    if dateOk today.year birthdate.month birthdate.day then
      ⟨today.year, birthdate.month, birthdate.day⟩
    else ⟨today.year, birthdate.month,
      last_day_of_month today.year birthdate.month⟩
  let nb1 : PyDate :=
    if dateLt nb0 today then
      if dateOk (today.year + 1) birthdate.month birthdate.day then
        ⟨today.year + 1, birthdate.month, birthdate.day⟩
      else ⟨today.year + 1, birthdate.month,
        last_day_of_month (today.year + 1) birthdate.month⟩
    else nb0
  toOrdinal nb1 - toOrdinal today

/-- C6: age calculation is invariant under leap-year clamping: for every
Feb 29 birthdate and every valid reference date on or after it within the
validation limits, `calculate_age` returns normally (it never raises a
date-construction error, `add_months` clamping the anniversary in non-leap
years to the last day of February), and `days_until_next_birthday` of a
Feb 29 birthdate on Feb 28 of a non-leap year is 0. -/
theorem feb29_age_clamping :
    (∀ bd od : PyDate, bd.month = 2 → bd.day = 29 →
      dateOk bd.year bd.month bd.day = true →
      dateOk od.year od.month od.day = true →
      dateLt od bd = false →
      (toOrdinal od - toOrdinal bd).fdiv 365 ≤ 150 →
      ∃ a, calculate_age bd od = .ok a) ∧
    (∀ yb y : Int, isLeap yb = true → isLeap y = false →
      days_until_next_birthday ⟨yb, 2, 29⟩ ⟨y, 2, 28⟩ = 0) := by
  constructor
  · intro bd od _ _ _ _ hlt hage
    simp only [calculate_age, hlt, Bool.false_eq_true, if_false,
      if_neg (not_lt.mpr hage)]
    exact ⟨_, rfl⟩
  · intro yb y _ hy
    have hld : last_day_of_month y 2 = 28 := by
      simp [last_day_of_month, hy]
    have hok : dateOk y 2 29 = false := by
      simp [dateOk, hld]
    have hlt : dateLt ⟨y, 2, 28⟩ ⟨y, 2, 28⟩ = false := by
      simp [dateLt]
    simp [days_until_next_birthday, hok, hld, hlt]

/-- Closed witness for `feb29_age_clamping`: the doctest instances
(`calculate_age(date(2000, 2, 29), date(2024, 3, 1))` and
`days_until_next_birthday(date(2000, 2, 29), date(2023, 2, 28))`). -/
theorem feb29_age_clamping_witness :
    (∃ a, calculate_age ⟨2000, 2, 29⟩ ⟨2024, 3, 1⟩ = .ok a) ∧
    days_until_next_birthday ⟨2000, 2, 29⟩ ⟨2023, 2, 28⟩ = 0 := by
  have h := feb29_age_clamping
  exact ⟨h.1 ⟨2000, 2, 29⟩ ⟨2024, 3, 1⟩ rfl rfl (by decide) (by decide)
      (by decide) (by decide),
    h.2 2000 2023 (by decide) (by decide)⟩

/-! ## Lesson 12 — `is_prime`, `split_range`, `threaded_primes`
(Tasks 1–2 of `12-uv.py`) -/

/-- The `while f <= limit` loop of `is_prime`: test divisibility by `f`
and `f + 2`, stepping `f += 6`. -/
def trialLoop (n limit f : Nat) : Bool :=
  if f ≤ limit then
    if n % f = 0 || n % (f + 2) = 0 then false
    else trialLoop n limit (f + 6)
  else true
termination_by limit + 1 - f
decreasing_by omega

/-- `is_prime` of lesson 12: trial division by 2, 3 and the `6k ± 1`
candidates up to `isqrt(n)` (`Nat.sqrt`). -/
def is_prime (n : Int) : Bool :=
  if n ≤ 1 then false
  else if n ≤ 3 then true
  else if n % 2 = 0 ∨ n % 3 = 0 then false
  else trialLoop n.toNat (Nat.sqrt n.toNat) 5

/-- Python `range(lo, hi + 1)` as a list (empty when `hi < lo`). -/
def intRange (lo hi : Int) : List Int :=
  (List.range (hi + 1 - lo).toNat).map fun k : Nat => lo + (k : Int)

/-- The `for i in range(m)` chunk-building loop of `split_range`, with
`cnt` the remaining iterations (`m - i`): each chunk takes `b` elements
plus one more while `i < r`. -/
def splitGo (b : Int) (r : Nat) : Int → Nat → Nat → List (Int × Int)
  | _, _, 0 => []
  | start, i, cnt + 1 =>
    let size := b + (if i < r then 1 else 0)
    let e := start + size - 1
    (start, e) :: splitGo b r (e + 1) (i + 1) cnt

/-- `split_range(lo, hi, parts)`: raise `ValueError` for `parts <= 0`,
swap a reversed range, then divide the `n` elements into `min(parts, n)`
consecutive chunks whose sizes come from `divmod(n, min(parts, n))`.  (The
`if lo > hi: return []` line of the source is unreachable after the
swap.) -/
def split_range (lo hi parts : Int) : Except ExcClass (List (Int × Int)) :=
  if parts ≤ 0 then .error .ValueError
  else
    let lo2 := if hi < lo then hi else lo
    let hi2 := if hi < lo then lo else hi
    let n : Nat := (hi2 - lo2 + 1).toNat
    let m : Nat := min parts.toNat n
    .ok (splitGo ((n / m : Nat) : Int) (n % m) lo2 0 m)

/-- `_prime_worker`: the primes in the job's inclusive subrange. -/
def prime_worker (job : Int × Int) : List Int :=
  (intRange job.1 job.2).filter fun k => is_prime k

/-- `threaded_primes`: one job per chunk; `arrival` is the list of worker
results in `as_completed` order (the main theorem quantifies over every
permutation of the submitted jobs' results); the merged list is sorted
ascending before being returned. -/
def threaded_primes (lo hi threads : Int) (arrival : List (List Int)) :
    Except ExcClass (List Int) :=
  if threads ≤ 0 then .error .ValueError
  else
    match split_range lo hi threads with
    | .error e => .error e
    | .ok _chunks =>
      .ok (arrival.flatten.mergeSort fun a b => decide (a ≤ b))

lemma intRange_append (lo mid hi : Int) (h1 : lo - 1 ≤ mid) (h2 : mid ≤ hi) :
    intRange lo mid ++ intRange (mid + 1) hi = intRange lo hi := by
  have hkey : (hi + 1 - lo).toNat = (mid + 1 - lo).toNat + (hi - mid).toNat := by
    omega
  unfold intRange
  rw [hkey, List.range_add, List.map_append, List.map_map]
  have hn2 : (hi + 1 - (mid + 1)).toNat = (hi - mid).toNat := by omega
  rw [hn2]
  congr 1
  apply List.map_congr_left
  intro k _
  simp only [Function.comp_apply]
  omega

lemma splitGo_flatten (b : Int) (hb : 1 ≤ b) (r : Nat) :
    ∀ (cnt : Nat) (start : Int) (i : Nat), r ≤ i + cnt →
      ((splitGo b r start i cnt).map fun c => intRange c.1 c.2).flatten =
        intRange start (start + cnt * b + ((r - i : Nat) : Int) - 1) := by
  intro cnt
  induction cnt with
  | zero =>
    intro start i hr
    have hend : (start + 0 * b + ((r - i : Nat) : Int) - 1 + 1 - start).toNat = 0 := by
      omega
    simp only [splitGo, List.map_nil, List.flatten_nil, intRange, Nat.cast_zero,
      hend, List.range_zero]
  | succ cnt ih =>
    intro start i hr
    simp only [splitGo, List.map_cons, List.flatten_cons]
    rw [ih (start + (b + if i < r then 1 else 0) - 1 + 1) (i + 1) (by omega)]
    have hcnt : 0 ≤ (cnt : Int) * b := by positivity
    have hend : start + (b + if i < r then 1 else 0) - 1 + 1 + cnt * b +
        ((r - (i + 1) : Nat) : Int) - 1 =
        start + (cnt + 1 : Nat) * b + ((r - i : Nat) : Int) - 1 := by
      by_cases hir : i < r
      · have hc : ((r - (i + 1) : Nat) : Int) = ((r - i : Nat) : Int) - 1 := by
          omega
        rw [if_pos hir, hc]
        push_cast
        ring
      · have hc1 : ((r - (i + 1) : Nat) : Int) = 0 := by omega
        have hc0 : ((r - i : Nat) : Int) = 0 := by omega
        rw [if_neg hir, hc1, hc0]
        push_cast
        ring
    rw [hend]
    apply intRange_append
    · have : (0 : Int) ≤ if i < r then 1 else 0 := by positivity
      linarith
    · have h0 : (0 : Int) ≤ ((r - i : Nat) : Int) := by positivity
      have h1 : (if i < r then (1 : Int) else 0) ≤ ((r - i : Nat) : Int) := by
        by_cases hir : i < r <;> simp [hir] <;> omega
      have hc : ((cnt + 1 : Nat) : Int) * b = (cnt : Int) * b + b := by
        push_cast
        ring
      rw [hc]
      linarith

lemma split_range_flatten (lo hi parts : Int) (hp : 1 ≤ parts) :
    ∃ chunks, split_range lo hi parts = .ok chunks ∧
      (chunks.map fun c => intRange c.1 c.2).flatten =
        intRange (min lo hi) (max lo hi) := by
  have hnp : ¬ parts ≤ 0 := by omega
  have hlo2 : (if hi < lo then hi else lo) = min lo hi := by
    rcases lt_or_le hi lo with h | h <;> simp [h, min_def] <;> omega
  have hhi2 : (if hi < lo then lo else hi) = max lo hi := by
    rcases lt_or_le hi lo with h | h <;> simp [h, max_def] <;> omega
  unfold split_range
  rw [if_neg hnp, hlo2, hhi2]
  refine ⟨_, rfl, ?_⟩
  have hminmax : min lo hi ≤ max lo hi := min_le_max
  set n : Nat := (max lo hi - min lo hi + 1).toNat with hn
  set m : Nat := min parts.toNat n with hm
  have hn1 : 1 ≤ n := by omega
  have hm1 : 1 ≤ m := by
    have : 1 ≤ parts.toNat := by omega
    omega
  have hmn : m ≤ n := min_le_right _ _
  have hb : 1 ≤ ((n / m : Nat) : Int) := by
    have := (Nat.one_le_div_iff (by omega : 0 < m)).mpr hmn
    omega
  have hr : n % m ≤ 0 + m := by
    have := Nat.mod_lt n (show 0 < m by omega)
    omega
  rw [splitGo_flatten _ hb _ m (min lo hi) 0 hr]
  have hend : min lo hi + m * ((n / m : Nat) : Int) + ((n % m - 0 : Nat) : Int) - 1 =
      max lo hi := by
    have h1 := Nat.div_add_mod n m
    have h2 : (m : Int) * ((n / m : Nat) : Int) = ((m * (n / m) : Nat) : Int) := by
      push_cast
      ring
    omega
  rw [hend]

lemma trialLoop_true_sound (n limit : Nat) :
    ∀ k f, limit + 1 - f ≤ k → trialLoop n limit f = true →
      ∀ p, f ≤ p → p ≤ limit →
        (p % 6 = f % 6 ∨ p % 6 = (f + 2) % 6) → n % p ≠ 0 := by
  intro k
  induction k with
  | zero =>
    intro f hk _ p hfp hpl _
    omega
  | succ k ih =>
    intro f hk ht p hfp hpl hmod
    unfold trialLoop at ht
    split at ht
    case isTrue hfl =>
      split at ht
      case isTrue hdiv => cases ht
      case isFalse hdiv =>
        simp only [Bool.or_eq_true, decide_eq_true_eq, not_or] at hdiv
        obtain ⟨h1, h2⟩ := hdiv
        by_cases hp6 : f + 6 ≤ p
        · refine ih (f + 6) (by omega) ht p hp6 hpl ?_
          omega
        · have hp : p = f ∨ p = f + 2 := by omega
          rcases hp with rfl | rfl
          · exact h1
          · exact h2
    case isFalse hfl =>
      omega

lemma trialLoop_false_divisor (n limit : Nat) :
    ∀ k f, limit + 1 - f ≤ k → trialLoop n limit f = false →
      ∃ g, f ≤ g ∧ g ≤ limit + 2 ∧ n % g = 0 ∧ f ≤ limit := by
  intro k
  induction k with
  | zero =>
    intro f hk ht
    unfold trialLoop at ht
    rw [if_neg (by omega : ¬ f ≤ limit)] at ht
    cases ht
  | succ k ih =>
    intro f hk ht
    unfold trialLoop at ht
    split at ht
    case isTrue hfl =>
      split at ht
      case isTrue hdiv =>
        simp only [Bool.or_eq_true, decide_eq_true_eq] at hdiv
        rcases hdiv with h | h
        · exact ⟨f, le_refl f, by omega, h, hfl⟩
        · exact ⟨f + 2, by omega, by omega, h, hfl⟩
      case isFalse hdiv =>
        obtain ⟨g, hg1, hg2, hg3, _⟩ := ih (f + 6) (by omega) ht
        exact ⟨g, by omega, hg2, hg3, hfl⟩
    case isFalse hfl =>
      cases ht

/-- The `6k ± 1` trial division of `is_prime` is sound and complete:
`is_prime n` is `True` exactly when `n > 1` and `n` has no divisor strictly
between 1 and `n`. -/
lemma is_prime_iff (n : Int) :
    is_prime n = true ↔ 1 < n ∧ ∀ d : Int, 1 < d → d < n → ¬ d ∣ n := by
  unfold is_prime
  by_cases h1 : n ≤ 1
  · rw [if_pos h1]
    simp only [Bool.false_eq_true, false_iff, not_and]
    intro hc
    omega
  rw [if_neg h1]
  by_cases h3 : n ≤ 3
  · rw [if_pos h3]
    simp only [true_iff]
    refine ⟨by omega, ?_⟩
    intro d hd1 hdn hdvd
    have hd : d = 2 := by omega
    subst hd
    rcases hdvd with ⟨c, hc⟩
    omega
  rw [if_neg h3]
  by_cases h23 : n % 2 = 0 ∨ n % 3 = 0
  · rw [if_pos h23]
    simp only [Bool.false_eq_true, false_iff]
    intro hcon
    rcases h23 with h | h
    · exact hcon.2 2 (by omega) (by omega) (Int.dvd_of_emod_eq_zero h)
    · exact hcon.2 3 (by omega) (by omega) (Int.dvd_of_emod_eq_zero h)
  rw [if_neg h23]
  have hN : ((n.toNat : Int)) = n := by omega
  constructor
  · intro ht
    refine ⟨by omega, ?_⟩
    intro d hd1 hdn hdvd
    have hD : ((d.toNat : Int)) = d := by omega
    have hDN : d.toNat ∣ n.toNat := by
      have h : ((d.toNat : Int)) ∣ ((n.toNat : Int)) := by
        rw [hD, hN]
        exact hdvd
      exact_mod_cast h
    have hNnp : ¬ n.toNat.Prime := by
      intro hp
      have := (Nat.prime_def_lt.mp hp).2 d.toNat (by omega) hDN
      omega
    set p := n.toNat.minFac with hpdef
    have hp : p.Prime := Nat.minFac_prime (by omega : n.toNat ≠ 1)
    have hpd : p ∣ n.toNat := Nat.minFac_dvd n.toNat
    have hsq : p * p ≤ n.toNat := by
      have h := Nat.minFac_sq_le_self (by omega : 0 < n.toNat) hNnp
      rw [pow_two] at h
      exact h
    have hple : p ≤ Nat.sqrt n.toNat := Nat.le_sqrt.mpr hsq
    obtain ⟨c, hc⟩ := hpd
    have hmod : n.toNat % p = 0 := by
      rw [hc]
      exact Nat.mul_mod_right _ _
    have hp2 : p ≠ 2 := by
      intro h
      rw [h] at hmod
      omega
    have hp3 : p ≠ 3 := by
      intro h
      rw [h] at hmod
      omega
    have hpo2 : p % 2 ≠ 0 := by
      intro h
      rcases hp.eq_one_or_self_of_dvd 2 (Nat.dvd_of_mod_eq_zero h) with h' | h'
      · omega
      · exact hp2 h'.symm
    have hpo3 : p % 3 ≠ 0 := by
      intro h
      rcases hp.eq_one_or_self_of_dvd 3 (Nat.dvd_of_mod_eq_zero h) with h' | h'
      · omega
      · exact hp3 h'.symm
    have hp5 : 5 ≤ p := by
      have := hp.two_le
      omega
    exact trialLoop_true_sound n.toNat (Nat.sqrt n.toNat) (Nat.sqrt n.toNat + 1)
      5 (by omega) ht p hp5 hple (by omega) hmod
  · intro hprop
    cases hb : trialLoop n.toNat (Nat.sqrt n.toNat) 5
    · exfalso
      obtain ⟨g, hg5, hgle, hgdvd, hflim⟩ :=
        trialLoop_false_divisor n.toNat (Nat.sqrt n.toNat)
          (Nat.sqrt n.toNat + 1) 5 (by omega) hb
      have hsq := Nat.sqrt_le n.toNat
      have hmul : 5 * Nat.sqrt n.toNat ≤ Nat.sqrt n.toNat * Nat.sqrt n.toNat :=
        Nat.mul_le_mul_right _ hflim
      have hgN : g < n.toNat := by omega
      have hdvdN : (g : Int) ∣ n := by
        rw [← hN]
        exact_mod_cast Nat.dvd_of_mod_eq_zero hgdvd
      exact hprop.2 (g : Int) (by omega) (by omega) hdvdN
    · rfl

lemma intRange_pairwise (lo hi : Int) : (intRange lo hi).Pairwise (· < ·) := by
  unfold intRange
  refine List.Pairwise.map _ ?_ (List.pairwise_lt_range _)
  intro a b hab
  omega

/-- C9: for every `lo`, `hi` and `threads ≥ 1`, `threaded_primes` returns
exactly the ascending sorted list of all primes in the inclusive range
`[min lo hi, max lo hi]`, whatever order the workers' results arrive in:
`split_range` partitions that range into consecutive, non-overlapping,
exhaustive chunks (their subranges concatenate to the full range), the
result list is strictly ascending, and `is_prime z` is `True` exactly when
`z > 1` and `z` has no divisor strictly between 1 and `z`. -/
theorem threaded_primes_correct
    (lo hi threads : Int) (arrival : List (List Int)) (hthreads : 1 ≤ threads) :
    (∃ chunks, split_range lo hi threads = .ok chunks ∧
      (chunks.map fun c => intRange c.1 c.2).flatten =
        intRange (min lo hi) (max lo hi) ∧
      (arrival.Perm (chunks.map prime_worker) →
        threaded_primes lo hi threads arrival =
          .ok ((intRange (min lo hi) (max lo hi)).filter fun k => is_prime k))) ∧
    List.Pairwise (· < ·)
      ((intRange (min lo hi) (max lo hi)).filter fun k => is_prime k) ∧
    (∀ z : Int, is_prime z = true ↔
      1 < z ∧ ∀ d : Int, 1 < d → d < z → ¬ d ∣ z) := by
  obtain ⟨chunks, hsp, hflat⟩ := split_range_flatten lo hi threads hthreads
  refine ⟨⟨chunks, hsp, hflat, ?_⟩, ?_, fun z => is_prime_iff z⟩
  · intro harr
    unfold threaded_primes
    rw [if_neg (by omega : ¬ threads ≤ 0), hsp]
    have hperm : arrival.flatten.Perm
        ((intRange (min lo hi) (max lo hi)).filter fun k => is_prime k) := by
      have h2 : (chunks.map prime_worker).flatten =
          ((chunks.map fun c => intRange c.1 c.2).flatten).filter
            fun k => is_prime k := by
        rw [List.filter_flatten, List.map_map]
        rfl
      have h1 := harr.flatten
      rw [h2, hflat] at h1
      exact h1
    have hs1 : (arrival.flatten.mergeSort fun a b : Int => decide (a ≤ b)).Sorted
        (· ≤ ·) := by
      have h := @List.sorted_mergeSort Int (fun a b : Int => decide (a ≤ b))
        (by intro a b c hab hbc; simp only [decide_eq_true_eq] at hab hbc ⊢; omega)
        (by intro a b; simp only [Bool.or_eq_true, decide_eq_true_eq]; omega)
        arrival.flatten
      exact List.Pairwise.imp (by intro a b hab; simpa using hab) h
    have hs2 : ((intRange (min lo hi) (max lo hi)).filter
        fun k => is_prime k).Sorted (· ≤ ·) := by
      refine List.Pairwise.imp (fun hab => le_of_lt hab) ?_
      exact (intRange_pairwise _ _).filter _
    have hgoal : (arrival.flatten.mergeSort fun a b : Int => decide (a ≤ b)) =
        (intRange (min lo hi) (max lo hi)).filter fun k => is_prime k :=
      List.eq_of_perm_of_sorted ((List.mergeSort_perm _ _).trans hperm) hs1 hs2
    rw [hgoal]
  · exact (intRange_pairwise _ _).filter _

/-- Closed witness for `threaded_primes_correct`: range 1..4 split over 3
workers, results arriving out of submission order. -/
theorem threaded_primes_correct_witness :
    threaded_primes 1 4 3 [[3], [], [2]] = .ok [2, 3] := by
  obtain ⟨⟨chunks, hsp, _hfl, himp⟩, _, _⟩ :=
    threaded_primes_correct 1 4 3 [[3], [], [2]] (by norm_num)
  have h : split_range 1 4 3 = .ok [(1, 2), (3, 3), (4, 4)] := rfl
  rw [h] at hsp
  have hch : chunks = [(1, 2), (3, 3), (4, 4)] := (Except.ok.inj hsp).symm
  have hres := himp (by rw [hch]; decide)
  rw [hres]
  rfl

end PyMAAB
